import Mathlib

/-!
Shallow embedding of src/import/ImportWavPack.cpp (Audacity WavPack import
adapter) and proofs about its claims.

The external WavPack decoding library (wavpack.h), the host progress dialog,
and the host track/tag classes are collaborators of the file under analysis;
they are modelled as explicit inputs: a `WavpackContext` records the answers
the library gives to each query, and the progress dialog is a stream of
`ProgressResult` responses, one per decode-loop iteration.
-/

namespace ImportWavPack

/-- Sample formats of the host (sampleFormat in the Audacity headers);
only the three constructors used by this file are modelled. -/
inductive sampleFormat where
  | int16Sample
  | int24Sample
  | floatSample
deriving DecidableEq, Repr

/-- Result type of the host progress dialog (ProgressResult). -/
inductive ProgressResult where
  | Success
  | Cancelled
  | Failed
  | Stopped
deriving DecidableEq, Repr

/-- MODE_VALID_TAG flag of wavpack.h (external library header). -/
def MODE_VALID_TAG : Nat := 16

/-- MODE_APETAG flag of wavpack.h (external library header). -/
def MODE_APETAG : Nat := 256

/-- Model of the external WavpackContext together with the answers the
library returns for it.  `samplesRead k r` is the value returned by the
k-th call of WavpackUnpackSamples when `r` samples per channel are
requested; `buffer k` is the interleaved int32 data the library wrote into
the caller's buffer on that call; `tagItems` are the (key, value) tag items
of the file in index order, as served by WavpackGetTagItemIndexed and
WavpackGetTagItem. -/
structure WavpackContext where
  numChannels : Nat
  sampleRate : Nat
  bitsPerSample : Int
  bytesPerSample : Nat
  numSamples : Int
  mode : Nat
  tagItems : List (String × String)
  samplesRead : Nat → Nat → Nat
  buffer : Nat → List Int

/-- Modelled from the spec: the application's internal track representation
holding one sequence of PCM samples per channel (WaveTrack of WaveTrack.h,
not part of the sources under analysis).  A sample value is the int32 cell
the importer hands to Append; `flushed` records whether Flush was called. -/
structure WaveTrack where
  format : sampleFormat
  rate : Nat
  samples : List Int
  flushed : Bool
deriving DecidableEq, Repr

instance : Inhabited WaveTrack := ⟨⟨sampleFormat.int16Sample, 0, [], false⟩⟩

/-- Modelled from the spec: appending one decoded PCM sample to a track
(WaveTrack::Append with length 1) extends the channel's sample sequence. -/
def WaveTrack.Append (t : WaveTrack) (v : Int) : WaveTrack :=
  { t with samples := t.samples ++ [v] }

/-- Modelled from the spec: WaveTrack::Flush finalises the track; it keeps
the appended sample sequence. -/
def WaveTrack.Flush (t : WaveTrack) : WaveTrack :=
  { t with flushed := true }

/-- NewWaveTrack of the host factory: a fresh track with the given format
and rate and no samples yet. -/
def NewWaveTrack (fmt : sampleFormat) (rate : Nat) : WaveTrack :=
  ⟨fmt, rate, [], false⟩

/-- TrackHolders: the list of channel groups the import pipeline receives. -/
abbrev TrackHolders := List (List WaveTrack)

/-- Modelled from the spec: the host's tag store, a key/value metadata
container (Tags of Tags.h, not part of the sources under analysis). -/
structure Tags where
  items : List (String × String)
deriving DecidableEq, Repr

/-- Modelled from the spec: Tags::Clear empties the store. -/
def Tags.Clear (_ : Tags) : Tags := ⟨[]⟩

/-- Modelled from the spec: Tags::HasTag tests for a key. -/
def Tags.HasTag (t : Tags) (k : String) : Bool :=
  t.items.any (fun p => p.1 = k)

/-- Insert-or-assign on the underlying association list: the first pair
with the key is overwritten, otherwise the pair is appended. -/
def setItems : List (String × String) → String → String → List (String × String)
  | [], k, v => [(k, v)]
  | p :: ps, k, v => if p.1 = k then (k, v) :: ps else p :: setItems ps k v

/-- Modelled from the spec: Tags::SetTag stores a value under a key,
replacing any existing value for that key. -/
def Tags.SetTag (t : Tags) (k v : String) : Tags :=
  ⟨setItems t.items k v⟩

/-- Modelled from the spec: looking a key up in the tag store. -/
def Tags.GetTag (t : Tags) (k : String) : Option String :=
  (t.items.find? (fun p => p.1 = k)).map (fun p => p.2)

/-- TAG_YEAR of Tags.h: the host's canonical year tag name. -/
def TAG_YEAR : String := "Year"

/-- The extension list `exts` of ImportWavPack.cpp. -/
def exts : List String := ["wv"]

/-- The extensions the plugin registers, from the constructor
`ImportPlugin(FileExtensions(exts.begin(), exts.end()))`. -/
def WavPackImportPlugin.fileExtensions : List String := exts

/-- The import file handle: the fields the constructor
WavPackImportFileHandle::WavPackImportFileHandle fills from the context. -/
structure WavPackImportFileHandle where
  mWavPackContext : WavpackContext
  mNumChannels : Nat
  mSampleRate : Nat
  mBitsPerSample : Int
  mBytesPerSample : Nat
  mNumSamples : Int
  mFormat : sampleFormat

/-- The constructor body: queries the library for the stream parameters and
maps the bit depth to a sample format (lines 147-161 of the source). -/
def WavPackImportFileHandle.ofContext (ctx : WavpackContext) : WavPackImportFileHandle :=
  { mWavPackContext := ctx
    mNumChannels := ctx.numChannels
    mSampleRate := ctx.sampleRate
    mBitsPerSample := ctx.bitsPerSample
    mBytesPerSample := ctx.bytesPerSample
    mNumSamples := ctx.numSamples
    mFormat :=
      if ctx.bitsPerSample ≤ 16 then sampleFormat.int16Sample
      else if ctx.bitsPerSample ≤ 24 then sampleFormat.int24Sample
      else sampleFormat.floatSample }

/-- WavPackImportPlugin::Open: the library's open call either yields a null
context (modelled `none`) and Open returns nullptr, or a context from which
a handle is constructed. -/
def WavPackImportPlugin.Open (openResult : Option WavpackContext) :
    Option WavPackImportFileHandle :=
  match openResult with
  | none => none
  | some ctx => some (WavPackImportFileHandle.ofContext ctx)

/-- GetStreamCount of the handle: always 1 (lines 276-279). -/
def WavPackImportFileHandle.GetStreamCount (_ : WavPackImportFileHandle) : Int := 1

/-- SAMPLES_TO_READ: the number of samples requested per loop iteration. -/
def SAMPLES_TO_READ : Nat := 100000

/-- The inner channel loop of Import (lines 202-205): one frame of the
interleaved buffer starting at index c is distributed over the channel
tracks, channel chn receiving buffer element c + chn. -/
def appendFrame (buf : List Int) : Nat → List WaveTrack → List WaveTrack
  | _, [] => []
  | c, t :: ts => t.Append (buf.getD c 0) :: appendFrame buf (c + 1) ts

/-- The outer deinterleaving loop of Import (lines 201-206): `sr` frames of
the interleaved buffer are appended to the tracks, the running buffer index
c advancing by the channel count after each frame. -/
def appendChunk (buf : List Int) : Nat → Nat → List WaveTrack → List WaveTrack
  | 0, _, tracks => tracks
  | sr + 1, c, tracks => appendChunk buf sr (c + tracks.length) (appendFrame buf c tracks)

/-- The decode do-while loop of Import (lines 198-210) with explicit fuel:
call k unpacks at most SAMPLES_TO_READ samples, deinterleaves them into the
tracks, accumulates the 32-bit running total (uint32_t overflow modelled by
% 2^32) and asks the progress dialog; it continues while the dialog says
Success and samples were read.  `none` means the fuel ran out before the
loop exited. -/
def decodeLoop (ctx : WavpackContext) (progress : Nat → ProgressResult) :
    Nat → Nat → List WaveTrack → Nat →
    Option (ProgressResult × List WaveTrack × Nat)
  | 0, _, _, _ => none
  | fuel + 1, k, tracks, total =>
    let sr := ctx.samplesRead k SAMPLES_TO_READ
    let tracks1 := appendChunk (ctx.buffer k) sr 0 tracks
    let total1 := (total + sr) % 2 ^ 32
    let upd := progress k
    if upd = ProgressResult.Success ∧ sr ≠ 0 then
      decodeLoop ctx progress fuel (k + 1) tracks1 total1
    else
      some (upd, tracks1, total1)

/-- Models wxString::Upper (used as name.Upper() at line 258): uppercases
every character. -/
def wxUpper (s : String) : String := ⟨s.data.map Char.toUpper⟩

/-- The APE value fix-up of Import (lines 248-255): in an APE tag, NUL
separators inside the value are replaced by backslashes. -/
def apeValue (ape : Bool) (v : String) : String :=
  if ape then ⟨v.data.map (fun ch => if ch = Char.ofNat 0 then Char.ofNat 92 else ch)⟩
  else v

/-- Models wxString::ToLong: parsing succeeds when the whole string is an
optionally signed decimal number. -/
def wxToLongOk (s : String) : Bool :=
  match s.data with
  | [] => false
  | c :: cs =>
    if c = Char.ofNat 45 ∨ c = Char.ofNat 43 then cs ≠ [] ∧ cs.all Char.isDigit
    else (c :: cs).all Char.isDigit

/-- WavpackGetTagItem of the library: the value stored under a key (the
first item with that key), empty when absent. -/
def wavpackTagValue (items : List (String × String)) (key : String) : String :=
  ((items.find? (fun p => p.1 = key)).map (fun p => p.2)).getD ""

/-- One iteration of the tag copy loop of Import (lines 232-269): fetch the
key at index i, look its value up by key, apply the APE fix-up, rename a
four-digit DATE item to TAG_YEAR when no year tag exists yet, and set the
tag. -/
def importTagItem (ape : Bool) (items : List (String × String)) (tags : Tags) (i : Nat) : Tags :=
  let item := (items.getD i ("", "")).1
  let value := apeValue ape (wavpackTagValue items item)
  let name :=
    if wxUpper item = "DATE" ∧ tags.HasTag TAG_YEAR = false ∧
        value.length = 4 ∧ wxToLongOk value = true then TAG_YEAR
    else item
  tags.SetTag name value

/-- The tag block of Import (lines 225-271): when the mode has a valid tag
block with more than zero items, the store is cleared and every indexed
item is copied; otherwise the store is untouched. -/
def importTags (ctx : WavpackContext) (tags : Tags) : Tags :=
  if ctx.mode &&& MODE_VALID_TAG ≠ 0 then
    let ape := decide (ctx.mode &&& MODE_APETAG ≠ 0)
    let numItems := ctx.tagItems.length
    if numItems > 0 then
      (List.range numItems).foldl (importTagItem ape ctx.tagItems) (Tags.Clear tags)
    else tags
  else tags

/-- WavPackImportFileHandle::Import (lines 174-274): clears the output,
creates one fresh track per channel, runs the decode loop, downgrades a
non-Stopped under-count to Failed (the wrapped 32-bit total compared with
the 64-bit declared count), returns early on Failed or Cancelled, otherwise
flushes the channels, pushes them as one group, copies the tags and returns
the loop result. -/
def Import (hnd : WavPackImportFileHandle) (progress : Nat → ProgressResult)
    (fuel : Nat) (tags : Tags) : Option (ProgressResult × TrackHolders × Tags) :=
  let n := hnd.mNumChannels
  let channels := (List.range n).map (fun _ => NewWaveTrack hnd.mFormat hnd.mSampleRate)
  match decodeLoop hnd.mWavPackContext progress fuel 0 channels 0 with
  | none => none
  | some (u, channels1, total) =>
    let updateResult :=
      if u ≠ ProgressResult.Stopped ∧ (total : Int) < hnd.mNumSamples then
        ProgressResult.Failed
      else u
    if updateResult = ProgressResult.Failed ∨ updateResult = ProgressResult.Cancelled then
      some (updateResult, ([] : List (List WaveTrack)), tags)
    else
      let channels2 := channels1.map WaveTrack.Flush
      let outTracks : List (List WaveTrack) := if channels2.isEmpty then [] else [channels2]
      some (updateResult, outTracks, importTags hnd.mWavPackContext tags)

/-- Specification-side view of the chunks the decode loop consumes: the
(samplesRead, buffer) pairs of the calls it performs, in order, mirroring
the loop's stopping rule. -/
def consumedChunks (ctx : WavpackContext) (progress : Nat → ProgressResult) :
    Nat → Nat → List (Nat × List Int)
  | 0, _ => []
  | fuel + 1, k =>
    let sr := ctx.samplesRead k SAMPLES_TO_READ
    if progress k = ProgressResult.Success ∧ sr ≠ 0 then
      (sr, ctx.buffer k) :: consumedChunks ctx progress fuel (k + 1)
    else
      [(sr, ctx.buffer k)]

/-- Specification-side deinterleaving: the sample sequence channel chn of n
channels receives from a list of chunks, frame f of a chunk contributing
interleaved element f * n + chn. -/
def channelSequence (n chn : Nat) (chunks : List (Nat × List Int)) : List Int :=
  (chunks.map (fun p => (List.range p.1).map (fun f => p.2.getD (f * n + chn) 0))).flatten

/-- Right-biased association lookup: the value of the last pair carrying
the key, the semantics a key/value store reaches after setting the pairs in
order. -/
def lastAssoc : List (String × String) → String → Option String
  | [], _ => none
  | p :: l, k =>
    match lastAssoc l k with
    | some v => some v
    | none => if p.1 = k then some p.2 else none

/-- Specification-side counterpart of one tag-copy iteration: the (name,
value) pair the iteration stores, phrased against the list of pairs already
produced instead of the mutated tag store. -/
def transformStep (ape : Bool) (items : List (String × String))
    (acc : List (String × String)) (i : Nat) : List (String × String) :=
  let item := (items.getD i ("", "")).1
  let value := apeValue ape (wavpackTagValue items item)
  let name :=
    if wxUpper item = "DATE" ∧ acc.any (fun p => p.1 = TAG_YEAR) = false ∧
        value.length = 4 ∧ wxToLongOk value = true then TAG_YEAR
    else item
  acc ++ [(name, value)]

/-- Specification-side view of the whole tag copy: the (name, value) pairs
Import stores, in order. -/
def transformedTagItems (ape : Bool) (items : List (String × String)) :
    List (String × String) :=
  (List.range items.length).foldl (transformStep ape items) []

/-- A two-channel 16-bit context whose library serves one chunk of two
frames and then reports the end of the stream. -/
def ctxStereo : WavpackContext :=
  ⟨2, 44100, 16, 2, 2, 0, [],
    fun k _ => if k = 0 then 2 else 0,
    fun k => if k = 0 then [10, 20, 30, 40] else []⟩

/-- The track group a successful import of ctxStereo produces. -/
def outStereo : TrackHolders :=
  [[⟨sampleFormat.int16Sample, 44100, [10, 30], true⟩,
    ⟨sampleFormat.int16Sample, 44100, [20, 40], true⟩]]

/-- A mono context that keeps serving one frame per call. -/
def ctxCancel : WavpackContext :=
  ⟨1, 8000, 16, 2, 1, 0, [], fun _ _ => 1, fun _ => [5]⟩

/-- A mono context with a valid non-APE tag block holding an Artist item
and a four-digit DATE item. -/
def ctxTagged : WavpackContext :=
  ⟨1, 8000, 16, 2, 0, 16, [("Artist", "Me"), ("DATE", "2001")],
    fun _ _ => 0, fun _ => []⟩

/-- A mono context whose library immediately reports the end of stream. -/
def ctxEmptyRead : WavpackContext :=
  ⟨1, 8000, 16, 2, 0, 0, [], fun _ _ => 0, fun _ => []⟩

/-- A context declaring 2^32 frames whose library serves none. -/
def ctxHuge : WavpackContext :=
  ⟨1, 8000, 16, 2, 4294967296, 0, [], fun _ _ => 0, fun _ => []⟩

/-- A mono context serving one frame per call, declaring ten frames. -/
def ctxStop : WavpackContext :=
  ⟨1, 44100, 16, 2, 10, 0, [], fun _ _ => 1, fun _ => [7]⟩

/-- A context carrying a tag item but no valid-tag mode bit. -/
def ctxModeless : WavpackContext :=
  ⟨1, 8000, 16, 2, 0, 0, [("A", "B")], fun _ _ => 0, fun _ => []⟩

/-- A nonempty tag store used to observe whether Import touches it. -/
def tagsXY : Tags := ⟨[("X", "Y")]⟩

/-- C3: the constructor maps the file's bit depth to a sample format by
exactly this rule: bitsPerSample ≤ 16 gives int16Sample, bitsPerSample in
17..24 gives int24Sample, and any larger bitsPerSample gives floatSample. -/
theorem format_of_bitsPerSample (ctx : WavpackContext) :
    (ctx.bitsPerSample ≤ 16 →
      (WavPackImportFileHandle.ofContext ctx).mFormat = sampleFormat.int16Sample) ∧
    (17 ≤ ctx.bitsPerSample ∧ ctx.bitsPerSample ≤ 24 →
      (WavPackImportFileHandle.ofContext ctx).mFormat = sampleFormat.int24Sample) ∧
    (24 < ctx.bitsPerSample →
      (WavPackImportFileHandle.ofContext ctx).mFormat = sampleFormat.floatSample) := by
  refine ⟨fun h => ?_, fun h => ?_, fun h => ?_⟩ <;>
    simp only [WavPackImportFileHandle.ofContext]
  · rw [if_pos h]
  · rw [if_neg (by omega), if_pos h.2]
  · rw [if_neg (by omega), if_neg (by omega)]

/-- Witness for C3 at concrete bit depths 16, 20 and 32. -/
theorem format_of_bitsPerSample_witness :
    (WavPackImportFileHandle.ofContext ⟨2, 44100, 16, 2, 0, 0, [], fun _ _ => 0, fun _ => []⟩).mFormat
        = sampleFormat.int16Sample ∧
    (WavPackImportFileHandle.ofContext ⟨2, 44100, 20, 3, 0, 0, [], fun _ _ => 0, fun _ => []⟩).mFormat
        = sampleFormat.int24Sample ∧
    (WavPackImportFileHandle.ofContext ⟨2, 44100, 32, 4, 0, 0, [], fun _ _ => 0, fun _ => []⟩).mFormat
        = sampleFormat.floatSample :=
  ⟨(format_of_bitsPerSample _).1 (by decide),
   (format_of_bitsPerSample _).2.1 (by decide),
   (format_of_bitsPerSample _).2.2 (by decide)⟩

/-- C6: when the library's open call yields a null context Open returns a
null handle, and whenever the library yields a context Open returns a
handle for it. -/
theorem Open_null_iff_no_handle :
    WavPackImportPlugin.Open none = none ∧
    ∀ ctx : WavpackContext, (WavPackImportPlugin.Open (some ctx)).isSome := by
  exact ⟨rfl, fun _ => rfl⟩

/-- C7: the plugin registers exactly the single extension "wv" and every
handle reports exactly one stream. -/
theorem plugin_extension_and_stream_count :
    WavPackImportPlugin.fileExtensions = ["wv"] ∧
    ∀ h : WavPackImportFileHandle, h.GetStreamCount = 1 := by
  exact ⟨rfl, fun _ => rfl⟩

theorem appendFrame_length (buf : List Int) :
    ∀ (tracks : List WaveTrack) (c : Nat),
      (appendFrame buf c tracks).length = tracks.length := by
  intro tracks
  induction tracks with
  | nil => intro c; rfl
  | cons t ts ih => intro c; simp [appendFrame, ih]

theorem appendFrame_getD (buf : List Int) :
    ∀ (tracks : List WaveTrack) (c chn : Nat), chn < tracks.length →
      (appendFrame buf c tracks).getD chn default =
        (tracks.getD chn default).Append (buf.getD (c + chn) 0) := by
  intro tracks
  induction tracks with
  | nil => intro c chn h; simp at h
  | cons t ts ih =>
    intro c chn h
    cases chn with
    | zero => simp [appendFrame]
    | succ n =>
      have hn : n < ts.length := by simpa using h
      have := ih (c + 1) n hn
      simp only [appendFrame, List.getD_cons_succ, this]
      have : c + 1 + n = c + (n + 1) := by omega
      rw [this]

theorem appendChunk_length (buf : List Int) :
    ∀ (sr : Nat) (tracks : List WaveTrack) (c : Nat),
      (appendChunk buf sr c tracks).length = tracks.length := by
  intro sr
  induction sr with
  | zero => intro tracks c; rfl
  | succ m ih =>
    intro tracks c
    simp [appendChunk, ih, appendFrame_length]

theorem appendChunk_getD (buf : List Int) :
    ∀ (sr : Nat) (tracks : List WaveTrack) (c chn : Nat), chn < tracks.length →
      (appendChunk buf sr c tracks).getD chn default =
        { tracks.getD chn default with
          samples := (tracks.getD chn default).samples ++
            (List.range sr).map (fun f => buf.getD (c + f * tracks.length + chn) 0) } := by
  intro sr
  induction sr with
  | zero => intro tracks c chn h; simp [appendChunk]
  | succ m ih =>
    intro tracks c chn h
    have hlen : (appendFrame buf c tracks).length = tracks.length := appendFrame_length buf tracks c
    have h2 : chn < (appendFrame buf c tracks).length := by rw [hlen]; exact h
    have step := ih (appendFrame buf c tracks) (c + tracks.length) chn h2
    rw [appendChunk, step, appendFrame_getD buf tracks c chn h, hlen]
    simp only [WaveTrack.Append, List.range_succ_eq_map, List.map_cons, List.map_map]
    rw [List.append_assoc]
    congr 1
    have harith : ∀ f : Nat, c + (f + 1) * tracks.length + chn
        = c + tracks.length + f * tracks.length + chn := by intro f; ring
    simp [Nat.zero_mul, Nat.add_zero, List.singleton_append, Function.comp,
      Nat.succ_eq_add_one, harith]

theorem decodeLoop_length (ctx : WavpackContext) (progress : Nat → ProgressResult) :
    ∀ (fuel k : Nat) (tracks : List WaveTrack) (total : Nat)
      (r : ProgressResult) (t1 : List WaveTrack) (tot : Nat),
      decodeLoop ctx progress fuel k tracks total = some (r, t1, tot) →
      t1.length = tracks.length := by
  intro fuel
  induction fuel with
  | zero => intro k tracks total r t1 tot h; simp [decodeLoop] at h
  | succ m ih =>
    intro k tracks total r t1 tot h
    simp only [decodeLoop] at h
    split at h
    · have := ih (k + 1) _ _ r t1 tot h
      rw [this, appendChunk_length]
    · simp only [Option.some.injEq, Prod.mk.injEq] at h
      obtain ⟨-, h2, -⟩ := h
      rw [← h2, appendChunk_length]

theorem decodeLoop_getD (ctx : WavpackContext) (progress : Nat → ProgressResult) :
    ∀ (fuel k : Nat) (tracks : List WaveTrack) (total : Nat)
      (r : ProgressResult) (t1 : List WaveTrack) (tot : Nat),
      decodeLoop ctx progress fuel k tracks total = some (r, t1, tot) →
      ∀ chn, chn < tracks.length →
        t1.getD chn default =
          { tracks.getD chn default with
            samples := (tracks.getD chn default).samples ++
              channelSequence tracks.length chn (consumedChunks ctx progress fuel k) } := by
  intro fuel
  induction fuel with
  | zero => intro k tracks total r t1 tot h; simp [decodeLoop] at h
  | succ m ih =>
    intro k tracks total r t1 tot h chn hchn
    simp only [decodeLoop] at h
    simp only [consumedChunks]
    split at h
    · have hlen : (appendChunk (ctx.buffer k) (ctx.samplesRead k SAMPLES_TO_READ) 0 tracks).length
          = tracks.length := appendChunk_length _ _ _ _
      have hchn2 : chn < (appendChunk (ctx.buffer k) (ctx.samplesRead k SAMPLES_TO_READ) 0 tracks).length := by
        rw [hlen]; exact hchn
      have step := ih (k + 1) _ _ r t1 tot h chn hchn2
      rw [step, hlen, appendChunk_getD _ _ _ _ _ hchn]
      rename_i hc
      rw [if_pos hc]
      simp only [channelSequence, List.map_cons, List.flatten_cons]
      simp [List.append_assoc]
    · simp only [Option.some.injEq, Prod.mk.injEq] at h
      obtain ⟨-, h2, -⟩ := h
      rename_i hc
      rw [if_neg hc, ← h2, appendChunk_getD _ _ _ _ _ hchn]
      simp [channelSequence]

theorem decodeLoop_total_lt (ctx : WavpackContext) (progress : Nat → ProgressResult) :
    ∀ (fuel k : Nat) (tracks : List WaveTrack) (total : Nat)
      (r : ProgressResult) (t1 : List WaveTrack) (tot : Nat),
      decodeLoop ctx progress fuel k tracks total = some (r, t1, tot) →
      tot < 2 ^ 32 := by
  intro fuel
  induction fuel with
  | zero => intro k tracks total r t1 tot h; simp [decodeLoop] at h
  | succ m ih =>
    intro k tracks total r t1 tot h
    simp only [decodeLoop] at h
    split at h
    · exact ih (k + 1) _ _ r t1 tot h
    · simp only [Option.some.injEq, Prod.mk.injEq] at h
      obtain ⟨-, -, h3⟩ := h
      rw [← h3]
      exact Nat.mod_lt _ (by norm_num)

theorem decodeLoop_isSome_of_zero_read (ctx : WavpackContext)
    (progress : Nat → ProgressResult) :
    ∀ (fuel k : Nat) (tracks : List WaveTrack) (total : Nat) (k0 : Nat),
      k ≤ k0 → k0 < k + fuel → ctx.samplesRead k0 SAMPLES_TO_READ = 0 →
      (decodeLoop ctx progress fuel k tracks total).isSome := by
  intro fuel
  induction fuel with
  | zero => intro k tracks total k0 h1 h2 h3; omega
  | succ m ih =>
    intro k tracks total k0 h1 h2 h3
    simp only [decodeLoop]
    split
    · rename_i hc
      have hk : k ≠ k0 := by
        intro he
        exact hc.2 (he ▸ h3)
      exact ih (k + 1) _ _ k0 (by omega) (by omega) h3
    · simp

theorem consumedChunks_frame_bound (ctx : WavpackContext)
    (progress : Nat → ProgressResult)
    (hlib : ∀ k r, ctx.samplesRead k r ≤ r) :
    ∀ (fuel k : Nat), ∀ p ∈ consumedChunks ctx progress fuel k,
      p.1 ≤ SAMPLES_TO_READ := by
  intro fuel
  induction fuel with
  | zero => intro k p hp; simp [consumedChunks] at hp
  | succ m ih =>
    intro k p hp
    simp only [consumedChunks] at hp
    split at hp
    · rcases List.mem_cons.mp hp with h | h
      · rw [h]; exact hlib k SAMPLES_TO_READ
      · exact ih (k + 1) p h
    · rcases List.mem_singleton.mp hp with h
      rw [h]; exact hlib k SAMPLES_TO_READ

/-- C2: whenever Import returns Cancelled or Failed, the out-track list is
the cleared empty list and the tag store is returned unmodified. -/
theorem Import_cancel_or_fail_frame (hnd : WavPackImportFileHandle)
    (progress : Nat → ProgressResult) (fuel : Nat) (tags0 : Tags)
    (res : ProgressResult) (out : TrackHolders) (tg : Tags)
    (h : Import hnd progress fuel tags0 = some (res, out, tg))
    (hres : res = ProgressResult.Cancelled ∨ res = ProgressResult.Failed) :
    out = [] ∧ tg = tags0 := by
  simp only [Import] at h
  cases hd : decodeLoop hnd.mWavPackContext progress fuel 0
      ((List.range hnd.mNumChannels).map (fun _ => NewWaveTrack hnd.mFormat hnd.mSampleRate)) 0 with
  | none => rw [hd] at h; simp at h
  | some v =>
    obtain ⟨u, t1, tot⟩ := v
    rw [hd] at h
    dsimp only at h
    set UR : ProgressResult :=
      if u ≠ ProgressResult.Stopped ∧ (tot : Int) < hnd.mNumSamples then
        ProgressResult.Failed
      else u with hUR
    split at h
    · simp only [Option.some.injEq, Prod.mk.injEq] at h
      exact ⟨h.2.1.symm, h.2.2.symm⟩
    · rename_i hno
      simp only [Option.some.injEq, Prod.mk.injEq] at h
      rcases hres with h2 | h2
      · exact absurd (Or.inr (h.1.trans h2)) hno
      · exact absurd (Or.inl (h.1.trans h2)) hno

/-- C5: every decode iteration requests at most SAMPLES_TO_READ = 100000
frames per channel, so under the library's contract every consumed chunk
holds at most 100000 frames; and as soon as some call returns 0 frames the
loop stops, so Import returns a result with any fuel beyond that call. -/
theorem Import_chunked_and_terminates (hnd : WavPackImportFileHandle)
    (progress : Nat → ProgressResult) (tags0 : Tags) (fuel k0 : Nat)
    (hlib : ∀ k r, hnd.mWavPackContext.samplesRead k r ≤ r)
    (hzero : hnd.mWavPackContext.samplesRead k0 SAMPLES_TO_READ = 0)
    (hfuel : k0 < fuel) :
    (Import hnd progress fuel tags0).isSome ∧
    (SAMPLES_TO_READ = 100000 ∧
      ∀ p ∈ consumedChunks hnd.mWavPackContext progress fuel 0,
        p.1 ≤ 100000) := by
  refine ⟨?_, rfl, ?_⟩
  · have hsome := decodeLoop_isSome_of_zero_read hnd.mWavPackContext progress fuel 0
      ((List.range hnd.mNumChannels).map (fun _ => NewWaveTrack hnd.mFormat hnd.mSampleRate)) 0
      k0 (Nat.zero_le _) (by omega) hzero
    simp only [Import]
    cases hd : decodeLoop hnd.mWavPackContext progress fuel 0
        ((List.range hnd.mNumChannels).map (fun _ => NewWaveTrack hnd.mFormat hnd.mSampleRate)) 0 with
    | none => rw [hd] at hsome; simp at hsome
    | some v =>
      obtain ⟨u, t1, tot⟩ := v
      dsimp only
      split <;> split <;> simp
  · exact consumedChunks_frame_bound hnd.mWavPackContext progress hlib fuel 0

/-- C8: the running total of frames is a 32-bit counter while the declared
frame count is 64-bit, and a non-Stopped result with wrapped total below
the declared count is downgraded; hence for every file declaring at least
2^32 frames, any result Import returns is Failed or Stopped. -/
theorem Import_wrapped_total_check (hnd : WavPackImportFileHandle)
    (progress : Nat → ProgressResult) (fuel : Nat) (tags0 : Tags)
    (res : ProgressResult) (out : TrackHolders) (tg : Tags)
    (h : Import hnd progress fuel tags0 = some (res, out, tg))
    (hbig : (2 : Int) ^ 32 ≤ hnd.mNumSamples) :
    res = ProgressResult.Failed ∨ res = ProgressResult.Stopped := by
  simp only [Import] at h
  cases hd : decodeLoop hnd.mWavPackContext progress fuel 0
      ((List.range hnd.mNumChannels).map (fun _ => NewWaveTrack hnd.mFormat hnd.mSampleRate)) 0 with
  | none => rw [hd] at h; simp at h
  | some v =>
    obtain ⟨u, t1, tot⟩ := v
    rw [hd] at h
    dsimp only at h
    have htot : tot < 2 ^ 32 := decodeLoop_total_lt _ _ _ _ _ _ _ _ _ hd
    have hlt : (tot : Int) < hnd.mNumSamples := by
      calc (tot : Int) < (2 : Int) ^ 32 := by exact_mod_cast htot
        _ ≤ hnd.mNumSamples := hbig
    set UR : ProgressResult :=
      if u ≠ ProgressResult.Stopped ∧ (tot : Int) < hnd.mNumSamples then
        ProgressResult.Failed
      else u with hUR
    have hURor : UR = ProgressResult.Failed ∨ UR = ProgressResult.Stopped := by
      rw [hUR]
      by_cases hu : u = ProgressResult.Stopped
      · rw [if_neg (by simp [hu])]; exact Or.inr hu
      · rw [if_pos ⟨hu, hlt⟩]; exact Or.inl rfl
    split at h <;>
      · simp only [Option.some.injEq, Prod.mk.injEq] at h
        rw [← h.1]
        exact hURor

/-- C9: when the decode loop ends with Stopped, the under-count check does
not downgrade it: the partially filled tracks are flushed and pushed as the
single output group, the tags are still copied, and Stopped is returned. -/
theorem Import_stopped_keeps_partial (hnd : WavPackImportFileHandle)
    (progress : Nat → ProgressResult) (fuel : Nat) (tags0 : Tags)
    (res : ProgressResult) (out : TrackHolders) (tg : Tags)
    (tracks : List WaveTrack) (total : Nat)
    (h : Import hnd progress fuel tags0 = some (res, out, tg))
    (hloop : decodeLoop hnd.mWavPackContext progress fuel 0
        ((List.range hnd.mNumChannels).map (fun _ => NewWaveTrack hnd.mFormat hnd.mSampleRate)) 0
      = some (ProgressResult.Stopped, tracks, total))
    (hn : 0 < hnd.mNumChannels) :
    res = ProgressResult.Stopped ∧ out = [tracks.map WaveTrack.Flush] ∧
    tg = importTags hnd.mWavPackContext tags0 ∧
    ∀ t ∈ out.flatten, t.flushed = true := by
  simp only [Import] at h
  rw [hloop] at h
  dsimp only at h
  rw [if_neg (by simp)] at h
  rw [if_neg (by simp)] at h
  have hlen : tracks.length = hnd.mNumChannels := by
    have := decodeLoop_length _ _ _ _ _ _ _ _ _ hloop
    simpa using this
  have hne : (tracks.map WaveTrack.Flush).isEmpty = false := by
    rcases tracks with _ | ⟨t, ts⟩
    · simp at hlen; omega
    · simp
  rw [hne] at h
  simp only [Bool.false_eq_true, if_false, Option.some.injEq, Prod.mk.injEq] at h
  obtain ⟨h1, h2, h3⟩ := h
  refine ⟨h1.symm, h2.symm, h3.symm, ?_⟩
  intro t ht
  rw [← h2] at ht
  simp only [List.flatten, List.append_nil] at ht
  rcases List.mem_map.mp (by simpa using ht) with ⟨t0, -, ht0⟩
  rw [← ht0]
  rfl

theorem getD_const_map_range (x : WaveTrack) (n i : Nat) (h : i < n) :
    ((List.range n).map (fun _ => x)).getD i default = x := by
  rw [List.getD_eq_getElem?_getD, List.getElem?_map, List.getElem?_range h]
  rfl

theorem getD_map_flush_of_lt (l : List WaveTrack) (i : Nat) (h : i < l.length) :
    (l.map WaveTrack.Flush).getD i default = WaveTrack.Flush (l.getD i default) := by
  rw [List.getD_eq_getElem?_getD, List.getElem?_map, List.getD_eq_getElem?_getD,
      List.getElem?_eq_getElem h]
  rfl

/-- C1: a successful Import pushes exactly one group of exactly
mNumChannels tracks, each created with the handle's sample rate and mapped
format, and channel chn's samples are exactly the elements f * n + chn of
the consumed interleaved chunks, in order. -/
theorem Import_deinterleaves (hnd : WavPackImportFileHandle)
    (progress : Nat → ProgressResult) (fuel : Nat) (tags0 : Tags)
    (out : TrackHolders) (tg : Tags)
    (h : Import hnd progress fuel tags0 = some (ProgressResult.Success, out, tg))
    (hn : 0 < hnd.mNumChannels) :
    out.length = 1 ∧ (out.getD 0 []).length = hnd.mNumChannels ∧
    ∀ chn, chn < hnd.mNumChannels →
      ((out.getD 0 []).getD chn default).format = hnd.mFormat ∧
      ((out.getD 0 []).getD chn default).rate = hnd.mSampleRate ∧
      ((out.getD 0 []).getD chn default).samples =
        channelSequence hnd.mNumChannels chn
          (consumedChunks hnd.mWavPackContext progress fuel 0) := by
  simp only [Import] at h
  cases hd : decodeLoop hnd.mWavPackContext progress fuel 0
      ((List.range hnd.mNumChannels).map (fun _ => NewWaveTrack hnd.mFormat hnd.mSampleRate)) 0 with
  | none => rw [hd] at h; simp at h
  | some v =>
    obtain ⟨u, t1, tot⟩ := v
    rw [hd] at h
    dsimp only at h
    set UR : ProgressResult :=
      if u ≠ ProgressResult.Stopped ∧ (tot : Int) < hnd.mNumSamples then
        ProgressResult.Failed
      else u with hUR
    have hlen : t1.length = hnd.mNumChannels := by
      have := decodeLoop_length _ _ _ _ _ _ _ _ _ hd
      simpa using this
    have hinitlen :
        ((List.range hnd.mNumChannels).map
          (fun _ => NewWaveTrack hnd.mFormat hnd.mSampleRate)).length = hnd.mNumChannels := by
      simp
    split at h
    · rename_i hcond
      simp only [Option.some.injEq, Prod.mk.injEq] at h
      rcases hcond with hc | hc
      · exact absurd (h.1.symm.trans hc) (by decide)
      · exact absurd (h.1.symm.trans hc) (by decide)
    · have hne : (t1.map WaveTrack.Flush).isEmpty = false := by
        rcases t1 with - | ⟨t, ts⟩
        · simp at hlen; omega
        · simp
      rw [hne] at h
      simp only [Bool.false_eq_true, if_false, Option.some.injEq, Prod.mk.injEq] at h
      obtain ⟨-, h2, -⟩ := h
      rw [← h2]
      refine ⟨rfl, ?_, ?_⟩
      · simp [hlen]
      · intro chn hchn
        have hchn1 : chn < t1.length := by rw [hlen]; exact hchn
        have hchn2 : chn <
            ((List.range hnd.mNumChannels).map
              (fun _ => NewWaveTrack hnd.mFormat hnd.mSampleRate)).length := by
          rw [hinitlen]; exact hchn
        have hstep := decodeLoop_getD _ _ _ _ _ _ _ _ _ hd chn hchn2
        rw [hinitlen] at hstep
        rw [getD_const_map_range _ _ _ hchn] at hstep
        simp only [List.getD_cons_zero]
        rw [getD_map_flush_of_lt t1 chn hchn1, hstep]
        simp [WaveTrack.Flush, NewWaveTrack]

/-- C10: with no valid tag block, or a valid tag block with zero items, the
tag store comes back exactly as it was passed in. -/
theorem Import_tags_untouched (hnd : WavPackImportFileHandle)
    (progress : Nat → ProgressResult) (fuel : Nat) (tags0 : Tags)
    (res : ProgressResult) (out : TrackHolders) (tg : Tags)
    (h : Import hnd progress fuel tags0 = some (res, out, tg))
    (hno : hnd.mWavPackContext.mode &&& MODE_VALID_TAG = 0 ∨
      hnd.mWavPackContext.tagItems = []) :
    tg = tags0 := by
  have himp : importTags hnd.mWavPackContext tags0 = tags0 := by
    rcases hno with h1 | h1
    · simp [importTags, h1]
    · simp [importTags, h1]
  simp only [Import] at h
  cases hd : decodeLoop hnd.mWavPackContext progress fuel 0
      ((List.range hnd.mNumChannels).map (fun _ => NewWaveTrack hnd.mFormat hnd.mSampleRate)) 0 with
  | none => rw [hd] at h; simp at h
  | some v =>
    obtain ⟨u, t1, tot⟩ := v
    rw [hd] at h
    dsimp only at h
    set UR : ProgressResult :=
      if u ≠ ProgressResult.Stopped ∧ (tot : Int) < hnd.mNumSamples then
        ProgressResult.Failed
      else u with hUR
    split at h
    · simp only [Option.some.injEq, Prod.mk.injEq] at h
      exact h.2.2.symm
    · simp only [Option.some.injEq, Prod.mk.injEq] at h
      rw [← h.2.2, himp]

theorem find?_setItems : ∀ (l : List (String × String)) (k v k2 : String),
    ((setItems l k v).find? (fun q => q.1 = k2)).map (fun q => q.2) =
      if k2 = k then some v
      else (l.find? (fun q => q.1 = k2)).map (fun q => q.2) := by
  intro l k v k2
  induction l with
  | nil =>
    by_cases hk : k2 = k
    · simp [setItems, List.find?_cons, hk]
    · have hk2 : ¬(k = k2) := fun e => hk e.symm
      simp [setItems, List.find?_cons, hk, hk2]
  | cons p ps ih =>
    by_cases hp : p.1 = k
    · simp only [setItems, if_pos hp]
      by_cases hk : k2 = k
      · simp [List.find?_cons, hk]
      · have hk2 : ¬(k = k2) := fun e => hk e.symm
        simp [List.find?_cons, hk, hk2, hp]
    · simp only [setItems, if_neg hp]
      by_cases hpk2 : p.1 = k2
      · have hk : ¬(k2 = k) := fun e => hp (hpk2.trans e)
        simp [List.find?_cons, hpk2, hk]
      · simp [List.find?_cons, hpk2, ih]

theorem getTag_setTag (t : Tags) (k v k2 : String) :
    (t.SetTag k v).GetTag k2 = if k2 = k then some v else t.GetTag k2 := by
  simp [Tags.SetTag, Tags.GetTag, find?_setItems]

theorem getTag_foldl_setTag : ∀ (l : List (String × String)) (acc : Tags) (k : String),
    (l.foldl (fun t p => t.SetTag p.1 p.2) acc).GetTag k =
      match lastAssoc l k with
      | some v => some v
      | none => acc.GetTag k := by
  intro l
  induction l with
  | nil => intro acc k; simp [lastAssoc]
  | cons p ps ih =>
    intro acc k
    simp only [List.foldl_cons, lastAssoc]
    rw [ih]
    cases hps : lastAssoc ps k with
    | some v => simp [hps]
    | none =>
      rw [getTag_setTag]
      by_cases hpk : p.1 = k
      · simp [hps, hpk]
      · have h2 : ¬(k = p.1) := fun e => hpk e.symm
        simp [hps, hpk, h2]

theorem lastAssoc_isSome : ∀ (l : List (String × String)) (k : String),
    (lastAssoc l k).isSome = l.any (fun p => p.1 = k) := by
  intro l
  induction l with
  | nil => intro k; simp [lastAssoc]
  | cons p ps ih =>
    intro k
    simp only [lastAssoc, List.any_cons]
    cases hps : lastAssoc ps k with
    | some v => simp [← ih, hps]
    | none =>
      by_cases hpk : p.1 = k <;> simp [← ih, hps, hpk]

theorem hasTag_eq_isSome_getTag (t : Tags) (k : String) :
    t.HasTag k = (t.GetTag k).isSome := by
  rcases t with ⟨items⟩
  simp only [Tags.HasTag, Tags.GetTag]
  induction items with
  | nil => rfl
  | cons p ps ih =>
    by_cases hp : p.1 = k <;> simp [List.find?_cons, List.any_cons, hp, ih]

theorem hasTag_foldl (l : List (String × String)) (k : String) :
    (l.foldl (fun t p => t.SetTag p.1 p.2) (⟨[]⟩ : Tags)).HasTag k =
      l.any (fun p => p.1 = k) := by
  rw [hasTag_eq_isSome_getTag, getTag_foldl_setTag, ← lastAssoc_isSome]
  cases hl : lastAssoc l k <;> simp [hl, Tags.GetTag]

theorem foldl_importTagItem_eq (ape : Bool) (items : List (String × String)) :
    ∀ (idxs : List Nat) (accL : List (String × String)),
      idxs.foldl (importTagItem ape items)
          (accL.foldl (fun t p => t.SetTag p.1 p.2) (⟨[]⟩ : Tags)) =
      (idxs.foldl (transformStep ape items) accL).foldl
          (fun t p => t.SetTag p.1 p.2) (⟨[]⟩ : Tags) := by
  intro idxs
  induction idxs with
  | nil => intro accL; rfl
  | cons i idxs ih =>
    intro accL
    simp only [List.foldl_cons]
    have hname : importTagItem ape items
        (accL.foldl (fun t p => t.SetTag p.1 p.2) (⟨[]⟩ : Tags)) i =
        (transformStep ape items accL i).foldl
          (fun t p => t.SetTag p.1 p.2) (⟨[]⟩ : Tags) := by
      simp only [importTagItem, transformStep, List.foldl_append, List.foldl_cons,
        List.foldl_nil]
      rw [hasTag_foldl]
    rw [hname]
    exact ih (transformStep ape items accL i)

theorem importTags_eq_transformed (ctx : WavpackContext) (tags0 : Tags)
    (hvalid : ctx.mode &&& MODE_VALID_TAG ≠ 0) (hne : ctx.tagItems ≠ []) :
    importTags ctx tags0 =
      (transformedTagItems (decide (ctx.mode &&& MODE_APETAG ≠ 0)) ctx.tagItems).foldl
        (fun t p => t.SetTag p.1 p.2) (⟨[]⟩ : Tags) := by
  simp only [importTags, transformedTagItems]
  rw [if_pos hvalid, if_pos (List.length_pos.mpr hne)]
  have hclear : Tags.Clear tags0 =
      ([] : List (String × String)).foldl (fun t p => t.SetTag p.1 p.2) (⟨[]⟩ : Tags) := rfl
  rw [hclear, foldl_importTagItem_eq]

theorem foldl_transformStep_length (ape : Bool) (items : List (String × String)) :
    ∀ (idxs : List Nat) (accL : List (String × String)),
      (idxs.foldl (transformStep ape items) accL).length = accL.length + idxs.length := by
  intro idxs
  induction idxs with
  | nil => intro accL; simp
  | cons i idxs ih =>
    intro accL
    simp only [List.foldl_cons, List.length_cons]
    rw [ih]
    simp only [transformStep, List.length_append, List.length_cons, List.length_nil]
    omega

theorem transformedTagItems_length (ape : Bool) (items : List (String × String)) :
    (transformedTagItems ape items).length = items.length := by
  simp [transformedTagItems, foldl_transformStep_length]

theorem foldl_transformStep_getD_stable (ape : Bool) (items : List (String × String)) :
    ∀ (idxs : List Nat) (accL : List (String × String)) (j : Nat), j < accL.length →
      (idxs.foldl (transformStep ape items) accL).getD j ("", "") =
        accL.getD j ("", "") := by
  intro idxs
  induction idxs with
  | nil => intro accL j hj; rfl
  | cons i idxs ih =>
    intro accL j hj
    simp only [List.foldl_cons]
    have hj2 : j < (transformStep ape items accL i).length := by
      simp only [transformStep, List.length_append, List.length_cons, List.length_nil]
      omega
    rw [ih _ j hj2]
    simp only [transformStep]
    exact List.getD_append _ _ _ _ hj

theorem getD_concat_length (l : List (String × String)) (x : String × String) :
    (l ++ [x]).getD l.length ("", "") = x := by
  rw [List.getD_eq_getElem?_getD, List.getElem?_append_right (Nat.le_refl _)]
  simp

theorem transformed_getD_eq (ape : Bool) (items : List (String × String)) :
    ∀ (m i : Nat), i < m →
      ((List.range m).foldl (transformStep ape items) []).getD i ("", "") =
        ((if wxUpper (items.getD i ("", "")).1 = "DATE" ∧
              (((List.range i).foldl (transformStep ape items) []).any
                (fun p => p.1 = TAG_YEAR)) = false ∧
              (apeValue ape (wavpackTagValue items (items.getD i ("", "")).1)).length = 4 ∧
              wxToLongOk (apeValue ape (wavpackTagValue items (items.getD i ("", "")).1)) = true
            then TAG_YEAR
            else (items.getD i ("", "")).1),
          apeValue ape (wavpackTagValue items (items.getD i ("", "")).1)) := by
  intro m
  induction m with
  | zero => intro i hi; omega
  | succ m ih =>
    intro i hi
    rw [List.range_succ, List.foldl_append, List.foldl_cons, List.foldl_nil]
    by_cases him : i < m
    · have hlen : i < ((List.range m).foldl (transformStep ape items) []).length := by
        rw [foldl_transformStep_length]
        simpa using him
      calc (transformStep ape items ((List.range m).foldl (transformStep ape items) []) m).getD
              i ("", "")
          = (((List.range m).foldl (transformStep ape items) []) ++
              [((if wxUpper (items.getD m ("", "")).1 = "DATE" ∧
                    (((List.range m).foldl (transformStep ape items) []).any
                      (fun p => p.1 = TAG_YEAR)) = false ∧
                    (apeValue ape (wavpackTagValue items (items.getD m ("", "")).1)).length = 4 ∧
                    wxToLongOk (apeValue ape (wavpackTagValue items (items.getD m ("", "")).1)) = true
                  then TAG_YEAR
                  else (items.getD m ("", "")).1),
                apeValue ape (wavpackTagValue items (items.getD m ("", "")).1))]).getD i ("", "") := rfl
        _ = (((List.range m).foldl (transformStep ape items) [])).getD i ("", "") :=
            List.getD_append _ _ _ _ hlen
        _ = _ := ih i him
    · have hieq : i = m := by omega
      subst hieq
      have hlen : ((List.range i).foldl (transformStep ape items) []).length = i := by
        rw [foldl_transformStep_length]; simp
      simp only [transformStep]
      have hgoal := getD_concat_length ((List.range i).foldl (transformStep ape items) [])
        ((if wxUpper (items.getD i ("", "")).1 = "DATE" ∧
              (((List.range i).foldl (transformStep ape items) []).any
                (fun p => p.1 = TAG_YEAR)) = false ∧
              (apeValue ape (wavpackTagValue items (items.getD i ("", "")).1)).length = 4 ∧
              wxToLongOk (apeValue ape (wavpackTagValue items (items.getD i ("", "")).1)) = true
            then TAG_YEAR
            else (items.getD i ("", "")).1),
          apeValue ape (wavpackTagValue items (items.getD i ("", "")).1))
      rw [hlen] at hgoal
      exact hgoal

theorem wavpackTagValue_getD (items : List (String × String))
    (hkeys : (items.map Prod.fst).Nodup) :
    ∀ i, i < items.length →
      wavpackTagValue items (items.getD i ("", "")).1 = (items.getD i ("", "")).2 := by
  induction items with
  | nil => intro i hi; simp at hi
  | cons q qs ih =>
    intro i hi
    have hkeys2 : (q.1 :: qs.map Prod.fst).Nodup := by simpa using hkeys
    rcases List.nodup_cons.mp hkeys2 with ⟨hq, hqs⟩
    cases i with
    | zero => simp [wavpackTagValue, List.find?_cons]
    | succ j =>
      have hj : j < qs.length := by simpa using hi
      simp only [List.getD_cons_succ]
      have hne : ¬(q.1 = (qs.getD j ("", "")).1) := by
        intro he
        apply hq
        rw [he]
        have hmem : qs.getD j ("", "") ∈ qs := by
          rw [List.getD_eq_getElem _ _ hj]
          exact List.getElem_mem _
        exact List.mem_map_of_mem Prod.fst hmem
      have hstep : wavpackTagValue (q :: qs) (qs.getD j ("", "")).1 =
          wavpackTagValue qs (qs.getD j ("", "")).1 := by
        simp only [wavpackTagValue, List.find?_cons, decide_eq_false hne]
      rw [hstep]
      exact ih hqs j hj

/-- C4: on a non-failed, non-cancelled import of a file with a valid,
nonempty tag block whose keys are distinct, the resulting tag store is the
cleared store refilled with the file's items: looking any key up yields the
last stored pair for it, the stored pair list has one entry per file item,
and entry i keeps the file's value at i (after the APE NUL fix-up) under
either the file's key at i or, for a renamed DATE item, TAG_YEAR. -/
theorem Import_tag_copy (hnd : WavPackImportFileHandle)
    (progress : Nat → ProgressResult) (fuel : Nat) (tags0 : Tags)
    (res : ProgressResult) (out : TrackHolders) (tg : Tags)
    (h : Import hnd progress fuel tags0 = some (res, out, tg))
    (hres : ¬(res = ProgressResult.Failed ∨ res = ProgressResult.Cancelled))
    (hvalid : hnd.mWavPackContext.mode &&& MODE_VALID_TAG ≠ 0)
    (hne : hnd.mWavPackContext.tagItems ≠ [])
    (hkeys : (hnd.mWavPackContext.tagItems.map Prod.fst).Nodup) :
    (∀ k, tg.GetTag k =
      lastAssoc (transformedTagItems
        (decide (hnd.mWavPackContext.mode &&& MODE_APETAG ≠ 0))
        hnd.mWavPackContext.tagItems) k) ∧
    (transformedTagItems (decide (hnd.mWavPackContext.mode &&& MODE_APETAG ≠ 0))
        hnd.mWavPackContext.tagItems).length = hnd.mWavPackContext.tagItems.length ∧
    ∀ i, i < hnd.mWavPackContext.tagItems.length →
      ((transformedTagItems (decide (hnd.mWavPackContext.mode &&& MODE_APETAG ≠ 0))
          hnd.mWavPackContext.tagItems).getD i ("", "")).2 =
        apeValue (decide (hnd.mWavPackContext.mode &&& MODE_APETAG ≠ 0))
          (hnd.mWavPackContext.tagItems.getD i ("", "")).2 ∧
      (((transformedTagItems (decide (hnd.mWavPackContext.mode &&& MODE_APETAG ≠ 0))
            hnd.mWavPackContext.tagItems).getD i ("", "")).1 =
          (hnd.mWavPackContext.tagItems.getD i ("", "")).1 ∨
        (((transformedTagItems (decide (hnd.mWavPackContext.mode &&& MODE_APETAG ≠ 0))
              hnd.mWavPackContext.tagItems).getD i ("", "")).1 = TAG_YEAR ∧
          wxUpper (hnd.mWavPackContext.tagItems.getD i ("", "")).1 = "DATE")) := by
  have htg : tg = importTags hnd.mWavPackContext tags0 := by
    simp only [Import] at h
    cases hd : decodeLoop hnd.mWavPackContext progress fuel 0
        ((List.range hnd.mNumChannels).map
          (fun _ => NewWaveTrack hnd.mFormat hnd.mSampleRate)) 0 with
    | none => rw [hd] at h; simp at h
    | some v =>
      obtain ⟨u, t1, tot⟩ := v
      rw [hd] at h
      dsimp only at h
      set UR : ProgressResult :=
        if u ≠ ProgressResult.Stopped ∧ (tot : Int) < hnd.mNumSamples then
          ProgressResult.Failed
        else u with hUR
      split at h
      · rename_i hcond
        simp only [Option.some.injEq, Prod.mk.injEq] at h
        rcases hcond with hc | hc
        · exact absurd (Or.inl (h.1.symm ▸ hc)) hres
        · exact absurd (Or.inr (h.1.symm ▸ hc)) hres
      · simp only [Option.some.injEq, Prod.mk.injEq] at h
        exact h.2.2.symm
  refine ⟨?_, transformedTagItems_length _ _, ?_⟩
  · intro k
    rw [htg, importTags_eq_transformed _ _ hvalid hne, getTag_foldl_setTag]
    cases hl : lastAssoc (transformedTagItems
        (decide (hnd.mWavPackContext.mode &&& MODE_APETAG ≠ 0))
        hnd.mWavPackContext.tagItems) k <;>
      simp [hl, Tags.GetTag]
  · intro i hi
    have hent := transformed_getD_eq
      (decide (hnd.mWavPackContext.mode &&& MODE_APETAG ≠ 0))
      hnd.mWavPackContext.tagItems hnd.mWavPackContext.tagItems.length i hi
    constructor
    · simp only [transformedTagItems]
      rw [hent, wavpackTagValue_getD _ hkeys i hi]
    · simp only [transformedTagItems]
      rw [hent]
      dsimp only
      split
      · rename_i hcond
        exact Or.inr ⟨rfl, hcond.1⟩
      · exact Or.inl rfl

/-- Witness for C1: the stereo context's interleaved chunk [10, 20, 30, 40]
lands as [10, 30] on channel 0 and [20, 40] on channel 1. -/
theorem Import_deinterleaves_witness :
    Import (WavPackImportFileHandle.ofContext ctxStereo)
        (fun _ => ProgressResult.Success) 3 ⟨[]⟩
      = some (ProgressResult.Success, outStereo, ⟨[]⟩) ∧
    (outStereo.length = 1 ∧ (outStereo.getD 0 []).length = ctxStereo.numChannels ∧
      ∀ chn, chn < ctxStereo.numChannels →
        ((outStereo.getD 0 []).getD chn default).format = sampleFormat.int16Sample ∧
        ((outStereo.getD 0 []).getD chn default).rate = ctxStereo.sampleRate ∧
        ((outStereo.getD 0 []).getD chn default).samples =
          channelSequence ctxStereo.numChannels chn
            (consumedChunks ctxStereo (fun _ => ProgressResult.Success) 3 0)) :=
  ⟨by decide,
   Import_deinterleaves (WavPackImportFileHandle.ofContext ctxStereo)
     (fun _ => ProgressResult.Success) 3 ⟨[]⟩ outStereo ⟨[]⟩ (by decide) (by decide)⟩

/-- Witness for C2: a Cancelled run returns the empty track list and the
tag store untouched. -/
theorem Import_cancel_or_fail_frame_witness :
    Import (WavPackImportFileHandle.ofContext ctxCancel)
        (fun _ => ProgressResult.Cancelled) 1 tagsXY
      = some (ProgressResult.Cancelled, [], tagsXY) ∧
    (([] : TrackHolders) = [] ∧ tagsXY = tagsXY) :=
  ⟨by decide,
   Import_cancel_or_fail_frame (WavPackImportFileHandle.ofContext ctxCancel)
     (fun _ => ProgressResult.Cancelled) 1 tagsXY ProgressResult.Cancelled [] tagsXY
     (by decide) (Or.inl rfl)⟩

/-- Witness for C4: the tagged context's items come back as Artist = Me
and the DATE item renamed to Year = 2001. -/
theorem Import_tag_copy_witness :
    Import (WavPackImportFileHandle.ofContext ctxTagged)
        (fun _ => ProgressResult.Success) 1 tagsXY
      = some (ProgressResult.Success,
          [[⟨sampleFormat.int16Sample, 8000, [], true⟩]],
          ⟨[("Artist", "Me"), ("Year", "2001")]⟩) ∧
    ((∀ k, (⟨[("Artist", "Me"), ("Year", "2001")]⟩ : Tags).GetTag k =
        lastAssoc (transformedTagItems false ctxTagged.tagItems) k) ∧
      (transformedTagItems false ctxTagged.tagItems).length = ctxTagged.tagItems.length ∧
      ∀ i, i < ctxTagged.tagItems.length →
        ((transformedTagItems false ctxTagged.tagItems).getD i ("", "")).2 =
          apeValue false (ctxTagged.tagItems.getD i ("", "")).2 ∧
        (((transformedTagItems false ctxTagged.tagItems).getD i ("", "")).1 =
            (ctxTagged.tagItems.getD i ("", "")).1 ∨
          (((transformedTagItems false ctxTagged.tagItems).getD i ("", "")).1 = TAG_YEAR ∧
            wxUpper (ctxTagged.tagItems.getD i ("", "")).1 = "DATE"))) :=
  ⟨by decide,
   Import_tag_copy (WavPackImportFileHandle.ofContext ctxTagged)
     (fun _ => ProgressResult.Success) 1 tagsXY ProgressResult.Success
     [[⟨sampleFormat.int16Sample, 8000, [], true⟩]]
     ⟨[("Artist", "Me"), ("Year", "2001")]⟩
     (by decide) (by decide) (by decide) (by decide) (by decide)⟩

/-- Witness for C5: with a library reporting end of stream on the first
call, one unit of fuel already yields a result, and every consumed chunk
obeys the 100000-frame bound. -/
theorem Import_chunked_and_terminates_witness :
    (Import (WavPackImportFileHandle.ofContext ctxEmptyRead)
        (fun _ => ProgressResult.Success) 1 ⟨[]⟩).isSome ∧
    (SAMPLES_TO_READ = 100000 ∧
      ∀ p ∈ consumedChunks ctxEmptyRead (fun _ => ProgressResult.Success) 1 0,
        p.1 ≤ 100000) :=
  Import_chunked_and_terminates (WavPackImportFileHandle.ofContext ctxEmptyRead)
    (fun _ => ProgressResult.Success) ⟨[]⟩ 1 0
    (fun _ r => Nat.zero_le r) rfl (by decide)

/-- Witness for C8: a file declaring 2^32 frames while the library serves
none is downgraded to Failed. -/
theorem Import_wrapped_total_check_witness :
    Import (WavPackImportFileHandle.ofContext ctxHuge)
        (fun _ => ProgressResult.Success) 1 ⟨[]⟩
      = some (ProgressResult.Failed, [], ⟨[]⟩) ∧
    (ProgressResult.Failed = ProgressResult.Failed ∨
      ProgressResult.Failed = ProgressResult.Stopped) :=
  ⟨by decide,
   Import_wrapped_total_check (WavPackImportFileHandle.ofContext ctxHuge)
     (fun _ => ProgressResult.Success) 1 ⟨[]⟩ ProgressResult.Failed [] ⟨[]⟩
     (by decide) (by decide)⟩

/-- Witness for C9: a Stopped run with one decoded frame and nine declared
frames still flushes and pushes the partial track and returns Stopped. -/
theorem Import_stopped_keeps_partial_witness :
    Import (WavPackImportFileHandle.ofContext ctxStop)
        (fun _ => ProgressResult.Stopped) 1 tagsXY
      = some (ProgressResult.Stopped,
          [[⟨sampleFormat.int16Sample, 44100, [7], true⟩]], tagsXY) ∧
    (ProgressResult.Stopped = ProgressResult.Stopped ∧
      ([[⟨sampleFormat.int16Sample, 44100, [7], true⟩]] : TrackHolders) =
        [[(⟨sampleFormat.int16Sample, 44100, [7], false⟩ : WaveTrack)].map WaveTrack.Flush] ∧
      tagsXY = importTags ctxStop tagsXY ∧
      ∀ t ∈ ([[⟨sampleFormat.int16Sample, 44100, [7], true⟩]] : TrackHolders).flatten,
        t.flushed = true) :=
  ⟨by decide,
   Import_stopped_keeps_partial (WavPackImportFileHandle.ofContext ctxStop)
     (fun _ => ProgressResult.Stopped) 1 tagsXY ProgressResult.Stopped
     [[⟨sampleFormat.int16Sample, 44100, [7], true⟩]] tagsXY
     [⟨sampleFormat.int16Sample, 44100, [7], false⟩] 1
     (by decide) (by decide) (by decide)⟩

/-- Witness for C10: with the valid-tag mode bit clear, the prefilled tag
store comes back unchanged. -/
theorem Import_tags_untouched_witness :
    Import (WavPackImportFileHandle.ofContext ctxModeless)
        (fun _ => ProgressResult.Success) 1 tagsXY
      = some (ProgressResult.Success,
          [[⟨sampleFormat.int16Sample, 8000, [], true⟩]], tagsXY) ∧
    tagsXY = tagsXY :=
  ⟨by decide,
   Import_tags_untouched (WavPackImportFileHandle.ofContext ctxModeless)
     (fun _ => ProgressResult.Success) 1 tagsXY ProgressResult.Success
     [[⟨sampleFormat.int16Sample, 8000, [], true⟩]] tagsXY
     (by decide) (Or.inl rfl)⟩

end ImportWavPack
